import Mathlib

/-
Verification development for the DVA218 UDP Transmission Protocol (UTP):
a shallow embedding of the sliding-window engine, frame codec, handshake
negotiation and teardown loops of `utp.c` / `main.c`, together with
theorems settling the specification claims.

Machine integers are modelled as `Int` (the C counters are `int64_t`,
never close to overflow in any behaviour the claims quantify over) and
`Nat` for the `uint8_t` flags byte, with the truncation of `UTP_TYPE`
made explicit.  The MD5 digest is an abstract parameter
`H : Pack → List Nat`: every structural property of the codec is proved
for an arbitrary digest function, and witnesses instantiate it with a
concrete computable function.
-/

namespace DVALab

/-! ## Flag constants (utp.h) -/

def MSG : Nat := 0

def NAK : Nat := 1

def ACK : Nat := 2

def SYN : Nat := 4

def FIN : Nat := 8

def END : Nat := 16

def REQ : Nat := 32

def RES : Nat := 64

def UTP_TEARDOWN_MAX : Int := 16

/-! ## Frame structure (struct utp_pack) -/

/-- One frame.  `msg` is the payload region (length = payload size,
unused tail zeroed), `md5` the 16-byte integrity tag. -/
structure Pack where
  size : Int
  seq : Int
  time : Int
  flags : Nat
  md5 : List Nat
  msg : List Nat
deriving DecidableEq

/-- The all-zero frame of a given payload size (`memset(frame, 0, fsize)`,
`calloc` of the window buffers). -/
def zeroPack (psize : Nat) : Pack :=
  ⟨0, 0, 0, 0, List.replicate 16 0, List.replicate psize 0⟩

/-! ## Flag helpers (utp.c) -/

/-- `UTP_FLAG`: bitwise AND with the option to check whether it is set. -/
def UTP_FLAG (f : Pack) (option : Nat) : Bool :=
  (f.flags &&& option) == option

/-- `UTP_FLAG_EXACT`: the flags byte equals the option exactly. -/
def UTP_FLAG_EXACT (f : Pack) (option : Nat) : Bool :=
  f.flags == option

/-- `UTP_TYPE`: `(uint8_t)(flags << 4) >> 4`, isolating the low nibble of
the 8-bit flags byte. -/
def UTP_TYPE (flags : Nat) : Nat :=
  ((flags * 16) % 256) / 16

/-! ## MD5 wrappers (utp.c), digest function abstract -/

/-- `UTP_MD5_PREPARE` applied to a frame: the tag region zeroed.  The
abstract digest is always applied to this zero-tagged frame, matching
`MD5` over the full frame with the tag field zeroed. -/
def zeroMd5 (f : Pack) : Pack :=
  { f with md5 := List.replicate 16 0 }

/-- `UTP_MD5_ADD`: zero the tag, compute the digest over the zero-tagged
frame, write it into the tag field. -/
def UTP_MD5_ADD (H : Pack → List Nat) (f : Pack) : Pack :=
  { f with md5 := H (zeroMd5 f) }

/-- `UTP_MD5_VERIFY`: copy the received tag aside, recompute the tag in
place (`UTP_MD5_ADD`), and compare.  Returns the frame as mutated and the
comparison result. -/
def UTP_MD5_VERIFY (H : Pack → List Nat) (f : Pack) : Pack × Bool :=
  let recv := f.md5
  let f2 := UTP_MD5_ADD H f
  (f2, decide (recv = f2.md5))

/-- `UTP_SEND` effect on the frame: stamp `time` with the clock, then
`UTP_MD5_ADD`.  (The datagram put on the wire is exactly this frame.) -/
def UTP_SEND (H : Pack → List Nat) (now : Int) (f : Pack) : Pack :=
  UTP_MD5_ADD H { f with time := now }

/-- `UTP_PACK_PROPERTIES`: set flags, size and seq, zero the payload
region (the `time` and `md5` fields of the underlying frame buffer are
left as they were). -/
def UTP_PACK_PROPERTIES (psize : Nat) (size seq : Int) (flags : Nat) (f : Pack) : Pack :=
  { f with flags := flags, size := size, seq := seq, msg := List.replicate psize 0 }

/-- `UTP_PACK_MESSAGE`: copy up to one payload of bytes from the stream,
set `size` to the bytes copied, and append the END modifier when the
whole remaining stream fits (otherwise the modifiers are stripped to the
bare type). -/
def UTP_PACK_MESSAGE (psize : Nat) (stream : List Nat) (seq : Int) (flags : Nat)
    (f : Pack) : Pack :=
  let msgLength := stream.length
  let overflow := psize < msgLength
  let sz : Int := if overflow then (psize : Int) else (msgLength : Int)
  let modflag : Nat := if overflow then UTP_TYPE flags else (END ||| flags)
  let f1 := UTP_PACK_PROPERTIES psize sz seq modflag f
  { f1 with msg := stream.take sz.toNat ++ List.replicate (psize - sz.toNat) 0 }

/-! ## Window / payload size negotiation (utp.c) -/

/-- `UTP_FORCE_WINDOW_SIZE`: adopt the size only when it exceeds 1,
otherwise keep the current global. -/
def UTP_FORCE_WINDOW_SIZE (cur size : Int) : Int :=
  if 1 < size then size else cur

/-- `UTP_FORCE_PAYLOAD_SIZE`: adopt the size only when it exceeds 1,
otherwise keep the current global. -/
def UTP_FORCE_PAYLOAD_SIZE (cur size : Int) : Int :=
  if 1 < size then size else cur

/-- `UTP_SET_WINDOW_SIZE`: force the smaller of the two proposals. -/
def UTP_SET_WINDOW_SIZE (cur recvSize sendSize : Int) : Int :=
  UTP_FORCE_WINDOW_SIZE cur (if sendSize < recvSize then sendSize else recvSize)

/-- `UTP_SET_PAYLOAD_SIZE`: force the smaller of the two proposals. -/
def UTP_SET_PAYLOAD_SIZE (cur recvSize sendSize : Int) : Int :=
  UTP_FORCE_PAYLOAD_SIZE cur (if sendSize < recvSize then sendSize else recvSize)

/-! ## Sliding window utilities (main.c) -/

/-- `sequenceInSpan`: the frame sequence and tracker offset are aligned,
`0 ≤ seq − offset < wsize`. -/
def sequenceInSpan (wsize seq offset : Int) : Bool :=
  decide (0 ≤ seq - offset) && decide (seq - offset < wsize)

/-- `slide`: `memmove(dest, dest + fsize, (wsize − 1) * fsize)`.  Slots
`0 .. W−2` receive the previous contents of slots `1 .. W−1`; the bytes
of slot `W−1` are not touched, so it retains the previous last frame. -/
def slide (w : List Pack) : List Pack :=
  w.drop 1 ++ w.drop (w.length - 1)

/-- `insert`: `memcpy(dest + (seq − offset) * fsize, frame, fsize)`,
copying the frame into the slot indexed by `seq − offset`.  (All three
call sites in `main.c` reach this only with an in-bounds index.) -/
def insertFrame (w : List Pack) (f : Pack) (seq offset : Int) : List Pack :=
  w.set (seq - offset).toNat f

/-- The stored sequence number of slot `i` (zero frame for an index past
the allocation). -/
def seqAt (w : List Pack) (i : Nat) : Int :=
  (w.getD i (zeroPack 0)).seq

/-! ## Receive-window advancement: processReceived (main.c) -/

/-- One delivery: append the first `size` bytes of the payload to the
delivery buffer; on the END modifier flush the buffer to the application
and reset it. -/
def deliverStep (acc : List Nat × List (List Nat)) (p : Pack) :
    List Nat × List (List Nat) :=
  let out2 := acc.1 ++ p.msg.take p.size.toNat
  if UTP_FLAG p END then ([], acc.2 ++ [out2]) else (out2, acc.2)

/-- The loop of `processReceived`: while the first received frame lines
up with the offset, deliver it, slide the receive window and increment
`recvNext`.  Fuel-indexed translation of the while loop; the fuel
`w.length + 1` used below is always sufficient. -/
def processReceivedGo :
    Nat → List Pack → Int → List Nat → List (List Nat) →
    List Pack × Int × List Nat × List (List Nat)
  | 0, w, n, out, fl => (w, n, out, fl)
  | fuel + 1, w, n, out, fl =>
    match w with
    | [] => (w, n, out, fl)
    | x :: xs =>
      if x.seq = n then
        let acc := deliverStep (out, fl) x
        processReceivedGo fuel (slide (x :: xs)) (n + 1) acc.1 acc.2
      else (x :: xs, n, out, fl)

/-- `processReceived`: returns the receive window, `recvNext`, the
delivery buffer and the list of messages flushed to the application. -/
def processReceived (w : List Pack) (n : Int) (out : List Nat) :
    List Pack × Int × List Nat × List (List Nat) :=
  processReceivedGo (w.length + 1) w n out []

/-- Modelled from the spec's words, for comparison with the code: the
length of the maximal contiguous run of frames at the base of the receive
window whose stored sequence numbers equal `recvNext`, `recvNext + 1`,
&c. -/
def runLen : List Pack → Int → Nat
  | [], _ => 0
  | x :: xs, n => if x.seq = n then runLen xs (n + 1) + 1 else 0

/-- Modelled from the spec's words: deliver the frames of a run in order,
flushing at END frames. -/
def deliverRun (run : List Pack) (out : List Nat) (fl : List (List Nat)) :
    List Nat × List (List Nat) :=
  run.foldl deliverStep (out, fl)

/-- Modelled from the spec's words (§4.4 receive-window advancement):
deliver exactly the maximal contiguous run, slide once per delivered
frame, and advance `recvNext` once per delivered frame. -/
def processReceivedSpec (w : List Pack) (n : Int) (out : List Nat) :
    List Pack × Int × List Nat × List (List Nat) :=
  let k := runLen w n
  let acc := deliverRun (w.take k) out []
  (slide^[k] w, n + (k : Int), acc.1, acc.2)

/-! ## C8: slide semantics -/

def c8a : Pack := ⟨1, 7, 0, 0, List.replicate 16 0, [65, 0]⟩

def c8b : Pack := ⟨1, 8, 0, 16, List.replicate 16 0, [66, 0]⟩

/-! ## Datagram receive (utp.c UTP_RECV) -/

/-- What the channel offers at one `UTP_RECV` call: either no datagram
within the timeout, or a datagram with the given frame contents. -/
inductive Outcome where
  | timeout : Outcome
  | deliver : Pack → Outcome
deriving DecidableEq

/-- `UTP_RECV`: on a datagram, read it into the frame buffer and return
the result of `UTP_MD5_VERIFY` (which also overwrites the tag field); a
timeout returns 0 without modifying the frame.  An exhausted trace is a
timeout. -/
def UTP_RECV (H : Pack → List Nat) (o : Option Outcome) (f : Pack) : Pack × Bool :=
  match o with
  | none => (f, false)
  | some Outcome.timeout => (f, false)
  | some (Outcome.deliver g) => UTP_MD5_VERIFY H g

/-! ## Teardown (utp.c) -/

/-- Result of a teardown loop: success flag, final contents of the shared
frame buffer, remaining receive trace, frames sent. -/
structure TearSt where
  ok : Bool
  frame : Pack
  seqS : Int
  rest : List Outcome
  sent : List Pack
deriving DecidableEq

/-- Result of `UTP_CLOSE_SEND`: acknowledged flag, the FIN frames sent in
the first phase, the ACK frames sent in the second, final frame buffer
and final send sequence. -/
structure CloseRes where
  ok : Bool
  fins : List Pack
  acks : List Pack
  frame : Pack
  seqS : Int
deriving DecidableEq

/-- Loop of `UTP_CLOSE_RECV`: while the frame's flags are not exactly
ACK, pack FIN|ACK (echoing the current frame's seq), send, recv, and
give up returning 0 once the countdown has been decremented past −1. -/
def UTP_CLOSE_RECV_go (H : Pack → List Nat) (now : Int) (psize : Nat) :
    Nat → Pack → Int → List Outcome → List Pack → Bool × Pack × List Pack
  | 0, f, _, _, sent => (false, f, sent)
  | fuel + 1, f, cd, tr, sent =>
    if UTP_FLAG_EXACT f ACK then (true, f, sent)
    else
      let fp := UTP_SEND H now (UTP_PACK_PROPERTIES psize 0 f.seq (FIN ||| ACK) f)
      let r := UTP_RECV H tr.head? fp
      if cd < 0 then (false, r.1, sent ++ [fp])
      else UTP_CLOSE_RECV_go H now psize fuel r.1 (cd - 1) tr.tail (sent ++ [fp])

/-- `UTP_CLOSE_RECV`: zero the frame, then run the FIN|ACK loop with a
countdown of `UTP_TEARDOWN_MAX`.  (The fuel 20 exceeds the 18 rounds the
countdown permits.) -/
def UTP_CLOSE_RECV (H : Pack → List Nat) (now : Int) (psize : Nat)
    (tr : List Outcome) : Bool × Pack × List Pack :=
  UTP_CLOSE_RECV_go H now psize 20 (zeroPack psize) UTP_TEARDOWN_MAX tr []

/-- First loop of `UTP_CLOSE_SEND`: while the frame's flags are not
exactly FIN|ACK, pack FIN with `seqSend++`, send, recv, and give up
returning 0 once the countdown has been decremented past −1. -/
def UTP_CLOSE_SEND_fin (H : Pack → List Nat) (now : Int) (psize : Nat) :
    Nat → Pack → Int → Int → List Outcome → List Pack → TearSt
  | 0, f, seqS, _, tr, sent => ⟨false, f, seqS, tr, sent⟩
  | fuel + 1, f, seqS, cd, tr, sent =>
    if UTP_FLAG_EXACT f (FIN ||| ACK) then ⟨true, f, seqS, tr, sent⟩
    else
      let fp := UTP_SEND H now (UTP_PACK_PROPERTIES psize 0 seqS FIN f)
      let r := UTP_RECV H tr.head? fp
      if cd < 0 then ⟨false, r.1, seqS + 1, tr.tail, sent ++ [fp]⟩
      else UTP_CLOSE_SEND_fin H now psize fuel r.1 (seqS + 1) (cd - 1) tr.tail (sent ++ [fp])

/-- Second loop of `UTP_CLOSE_SEND` (do-while): pack ACK with
`seqSend++`, send, give up returning 0 once the countdown is spent
(before the recv of that round), else recv and repeat exactly while a
verified frame still bears flags FIN|ACK; exiting the loop returns 1. -/
def UTP_CLOSE_SEND_ack (H : Pack → List Nat) (now : Int) (psize : Nat) :
    Nat → Pack → Int → Int → List Outcome → List Pack → TearSt
  | 0, f, seqS, _, tr, sent => ⟨false, f, seqS, tr, sent⟩
  | fuel + 1, f, seqS, cd, tr, sent =>
    let fp := UTP_SEND H now (UTP_PACK_PROPERTIES psize 0 seqS ACK f)
    if cd < 0 then ⟨false, fp, seqS + 1, tr, sent ++ [fp]⟩
    else
      let r := UTP_RECV H tr.head? fp
      if r.2 && UTP_FLAG_EXACT r.1 (FIN ||| ACK) then
        UTP_CLOSE_SEND_ack H now psize fuel r.1 (seqS + 1) (cd - 1) tr.tail (sent ++ [fp])
      else ⟨true, r.1, seqS + 1, tr.tail, sent ++ [fp]⟩

/-- `UTP_CLOSE_SEND`: zero the frame, send FIN until a frame flagged
exactly FIN|ACK is stored or the countdown is spent; then reset the
countdown and send the final ACKs. -/
def UTP_CLOSE_SEND (H : Pack → List Nat) (now : Int) (psize : Nat)
    (seqS : Int) (tr : List Outcome) : CloseRes :=
  let p1 := UTP_CLOSE_SEND_fin H now psize 20 (zeroPack psize) seqS
    UTP_TEARDOWN_MAX tr []
  if p1.ok then
    let p2 := UTP_CLOSE_SEND_ack H now psize 20 p1.frame p1.seqS
      UTP_TEARDOWN_MAX p1.rest []
    ⟨p2.ok, p1.sent, p2.sent, p2.frame, p2.seqS⟩
  else ⟨false, p1.sent, [], p1.frame, p1.seqS⟩

/-! ## Event handler state (main.c) -/

/-- `struct utp_tracker`. -/
structure Tracker where
  sendLast : Int
  recvLast : Int
  sendNext : Int
  recvNext : Int
deriving DecidableEq

/-- Tracker initialization in `main` (main.c:392–395): `sendLast = 0`,
`recvLast = 0`, `sendNext = conn.seqSend`, `recvNext = conn.seqRecv + 1`. -/
def trackerInit (seqSend seqRecv : Int) : Tracker :=
  ⟨0, 0, seqSend, seqRecv + 1⟩

/-- State of the `sendFrames` loop: the input stream and cursor (the list
is the live bytes, its length the cursor), `conn.seqSend`, the frame
counter, the send window, the tracker fields it reads and writes, and
the frames transmitted. -/
structure SendSt where
  input : List Nat
  seqSend : Int
  frameCount : Int
  sendW : List Pack
  sendNext : Int
  sendLast : Int
  sent : List Pack
deriving DecidableEq

/-- The loop of `sendFrames`: while the window is not overflown and the
input stream has data, pack one message frame with `conn.seqSend++`,
consume one payload chunk from the stream, send the frame, insert it
into the send buffer, update `sendLast` and the frame counter.  The
frame is built over a zeroed scratch; `UTP_SEND` overwrites the only
fields (`time`, `md5`) that the scratch could otherwise contribute. -/
def sendFramesGo (wsize : Int) (psize : Nat) (H : Pack → List Nat) (now : Int) :
    Nat → SendSt → SendSt
  | 0, s => s
  | fuel + 1, s =>
    if s.frameCount < wsize ∧ 0 < s.input.length then
      let fs := UTP_SEND H now (UTP_PACK_MESSAGE psize s.input s.seqSend MSG (zeroPack psize))
      let input2 := if (psize : Int) < s.input.length then s.input.drop psize else []
      sendFramesGo wsize psize H now fuel
        ⟨input2, s.seqSend + 1, s.frameCount + 1,
          insertFrame s.sendW fs fs.seq s.sendNext, s.sendNext, fs.seq,
          s.sent ++ [fs]⟩
    else s

/-- `sendFrames`: the loop runs while `frameCount < wsize`, so
`(wsize − frameCount).toNat` rounds always suffice. -/
def sendFrames (wsize : Int) (psize : Nat) (H : Pack → List Nat) (now : Int)
    (s : SendSt) : SendSt :=
  sendFramesGo wsize psize H now (wsize - s.frameCount).toNat s

/-- State touched by `slideWindow`: both send-side buffers, the send
offset and the frame counter. -/
structure SwSt where
  sendW : List Pack
  acksW : List Pack
  sendNext : Int
  frameCount : Int
deriving DecidableEq

/-- The loop of `slideWindow`: while the first ack lines up with the send
offset, slide both send-side buffers, increment the offset, decrement
the frame counter. -/
def slideWindowGo : Nat → SwSt → SwSt
  | 0, s => s
  | fuel + 1, s =>
    match s.acksW with
    | [] => s
    | a :: rest =>
      if a.seq = s.sendNext then
        slideWindowGo fuel
          ⟨slide s.sendW, slide (a :: rest), s.sendNext + 1, s.frameCount - 1⟩
      else s

/-- `slideWindow` with fuel `acks.length + 1`, which always suffices (the
loop condition walks the ack run at the window base). -/
def slideWindow (s : SwSt) : SwSt :=
  slideWindowGo (s.acksW.length + 1) s

/-- The state shared by the event handler: window buffers, tracker,
frame counter, `conn.seqSend`, input stream, delivery buffer, messages
flushed to the application, the shared frame scratch, and the
`running` / `tdClean` globals. -/
structure EvState where
  recvW : List Pack
  sendW : List Pack
  acksW : List Pack
  status : Tracker
  frameCount : Int
  seqSend : Int
  input : List Nat
  out : List Nat
  flushed : List (List Nat)
  scratch : Pack
  running : Bool
  tdClean : Bool
deriving DecidableEq

/-- `QUIT\n`, the stdin sentinel triggering a graceful close. -/
def quitMsg : List Nat := [81, 85, 73, 84, 10]

/-- Everything in the event state except the shared frame scratch: the
protocol-visible components. -/
def obsOf (s : EvState) :
    List Pack × List Pack × List Pack × Tracker × Int × Int ×
    List Nat × List Nat × List (List Nat) × Bool × Bool :=
  (s.recvW, s.sendW, s.acksW, s.status, s.frameCount, s.seqSend,
    s.input, s.out, s.flushed, s.running, s.tdClean)

/-- The MSG branch of the event handler: if the sequence is in the span
of the receive window, insert the frame, raise `recvLast`, and run the
receive-window advancement; regardless, answer with an ACK bearing the
same `seq`. -/
def msgCase (wsize : Int) (psize : Nat) (H : Pack → List Nat) (now : Int)
    (f : Pack) (st : EvState) : EvState × List Pack :=
  let st1 :=
    if sequenceInSpan wsize f.seq st.status.recvNext then
      let recv2 := insertFrame st.recvW f f.seq st.status.recvNext
      let last2 := if st.status.recvLast < f.seq then f.seq else st.status.recvLast
      let pr := processReceived recv2 st.status.recvNext st.out
      { st with
        recvW := pr.1,
        status := { st.status with recvLast := last2, recvNext := pr.2.1 },
        out := pr.2.2.1,
        flushed := st.flushed ++ pr.2.2.2 }
    else st
  let ackp := UTP_SEND H now (UTP_PACK_PROPERTIES psize 0 f.seq ACK f)
  ({ st1 with scratch := ackp }, [ackp])

/-- The ACK branch: if the sequence is in the span of the send window,
insert the ack and advance the send window; then refill the send window
from the input stream. -/
def ackCase (wsize : Int) (psize : Nat) (H : Pack → List Nat) (now : Int)
    (f : Pack) (st : EvState) : EvState × List Pack :=
  let st1 :=
    if sequenceInSpan wsize f.seq st.status.sendNext then
      let acks2 := insertFrame st.acksW f f.seq st.status.sendNext
      let sw := slideWindow ⟨st.sendW, acks2, st.status.sendNext, st.frameCount⟩
      { st with
        sendW := sw.sendW,
        acksW := sw.acksW,
        status := { st.status with sendNext := sw.sendNext },
        frameCount := sw.frameCount }
    else st
  let r := sendFrames wsize psize H now
    ⟨st1.input, st1.seqSend, st1.frameCount, st1.sendW,
      st1.status.sendNext, st1.status.sendLast, []⟩
  ({ st1 with
      input := r.input,
      seqSend := r.seqSend,
      frameCount := r.frameCount,
      sendW := r.sendW,
      status := { st1.status with sendLast := r.sendLast },
      scratch := (r.sent.getLast? ).getD st1.scratch }, r.sent)

/-- The NAK branch: immediately resend the frame stored at
`send[seq − sendNext]` (no timeout is consulted and no bounds check is
made; the unchecked buffer read is surfaced as `Except.error` carrying
the out-of-bounds index).  `UTP_SEND` refreshes the stored frame's
timestamp and tag in place. -/
def nakCase (H : Pack → List Nat) (now : Int) (f : Pack) (st : EvState) :
    Except Int (EvState × List Pack) :=
  let idx := f.seq - st.status.sendNext
  if h : 0 ≤ idx ∧ idx < (st.sendW.length : Int) then
    let ps := UTP_SEND H now (st.sendW.get ⟨idx.toNat, by omega⟩)
    Except.ok ({ st with sendW := st.sendW.set idx.toNat ps }, [ps])
  else Except.error idx

/-- The FIN branch: stop running and take the teardown result from
`UTP_CLOSE_RECV` (which zeroes and then reuses the shared frame). -/
def finCase (H : Pack → List Nat) (now : Int) (psize : Nat)
    (td : List Outcome) (st : EvState) : EvState × List Pack :=
  let cr := UTP_CLOSE_RECV H now psize td
  ({ st with running := false, tdClean := cr.1, scratch := cr.2.1 }, cr.2.2)

/-- One iteration of the event loop (main.c `eventHandler`): receive into
the shared frame; on a verified frame dispatch on the low nibble of its
flags; otherwise, if a line of input is available, either initiate the
close on the quit sentinel or feed the line to `sendFrames`. -/
def eventStep (wsize : Int) (psize : Nat) (H : Pack → List Nat) (now : Int)
    (o : Outcome) (line : Option (List Nat)) (td : List Outcome)
    (st : EvState) : Except Int (EvState × List Pack) :=
  let r := UTP_RECV H (some o) st.scratch
  let st0 := { st with scratch := r.1 }
  if r.2 then
    if UTP_TYPE r.1.flags = NAK then nakCase H now r.1 st0
    else if UTP_TYPE r.1.flags = MSG then Except.ok (msgCase wsize psize H now r.1 st0)
    else if UTP_TYPE r.1.flags = ACK then Except.ok (ackCase wsize psize H now r.1 st0)
    else if UTP_TYPE r.1.flags = FIN then Except.ok (finCase H now psize td st0)
    else Except.ok (st0, [])
  else
    match line with
    | none => Except.ok (st0, [])
    | some l =>
      if l = quitMsg then
        let cs := UTP_CLOSE_SEND H now psize st0.seqSend td
        Except.ok ({ st0 with
          input := st0.input ++ l.dropLast,
          running := false,
          tdClean := cs.ok,
          scratch := cs.frame,
          seqSend := cs.seqS }, cs.fins ++ cs.acks)
      else
        let r2 := sendFrames wsize psize H now
          ⟨st0.input ++ l.dropLast, st0.seqSend, st0.frameCount, st0.sendW,
            st0.status.sendNext, st0.status.sendLast, []⟩
        Except.ok ({ st0 with
          input := r2.input,
          seqSend := r2.seqSend,
          frameCount := r2.frameCount,
          sendW := r2.sendW,
          status := { st0.status with sendLast := r2.sendLast },
          scratch := (r2.sent.getLast? ).getD st0.scratch }, r2.sent)

/-- A fixed computable digest used to instantiate the abstract digest
function in concrete witnesses and counterexamples. -/
def constH : Pack → List Nat := fun _ => List.replicate 16 0

/-- Does an outcome deliver a datagram whose flags read exactly FIN|ACK?
(The teardown loops test the frame buffer's flags, so a corrupt datagram
with those flags also matches.) -/
def isFinAckDeliver : Outcome → Bool
  | Outcome.timeout => false
  | Outcome.deliver f => UTP_FLAG_EXACT f (FIN ||| ACK)

def c2f : Pack := ⟨1, 50, 0, 0, List.replicate 16 0, [65, 0]⟩

def c2win : List Pack := [zeroPack 2, zeroPack 2]

def c2stIn : EvState :=
  ⟨c2win, c2win, c2win, ⟨49, 49, 40, 50⟩, 0, 40, [], [], [], zeroPack 2, true, false⟩

def c2stOut : EvState :=
  ⟨c2win, c2win, c2win, ⟨49, 49, 40, 60⟩, 0, 40, [], [], [], zeroPack 2, true, false⟩

def c2s : SendSt := ⟨[65], 7, 1, [zeroPack 2, zeroPack 2], 6, 6, []⟩

def c4f : Pack := ⟨1, 7, 0, 0, List.replicate 16 0, [65, 0]⟩

def c4st : EvState :=
  ⟨[zeroPack 2, zeroPack 2], [zeroPack 2, zeroPack 2], [zeroPack 2, zeroPack 2],
    ⟨49, 49, 40, 50⟩, 0, 40, [], [], [], zeroPack 2, true, false⟩

def c6ack : Pack := ⟨0, 0, 0, 2, List.replicate 16 1, List.replicate 2 0⟩

def c6st : EvState :=
  ⟨[zeroPack 2, zeroPack 2], [zeroPack 2, zeroPack 2], [zeroPack 2, zeroPack 2],
    ⟨49, 49, 40, 50⟩, 0, 40, [72], [], [], zeroPack 2, true, false⟩

def c7f : Pack := ⟨0, 5, 0, 1, List.replicate 16 0, [0, 0]⟩

def c7g : Pack := ⟨0, 11, 0, 1, List.replicate 16 0, [0, 0]⟩

def c7st : EvState :=
  ⟨[zeroPack 2, zeroPack 2], [zeroPack 2, zeroPack 2], [zeroPack 2, zeroPack 2],
    ⟨11, 49, 10, 50⟩, 0, 12, [], [], [], zeroPack 2, true, false⟩

def c9fa : Pack := ⟨0, 0, 0, 10, List.replicate 16 0, List.replicate 2 0⟩

def c9pre : List Outcome := [Outcome.timeout, Outcome.timeout]

theorem UTP_TYPE_eq_mod (flags : Nat) : UTP_TYPE flags = flags % 16 := by
  unfold UTP_TYPE
  omega

/-- C10: `UTP_MD5_VERIFY` is not read-only.  For every digest function and
every frame it overwrites the frame's `md5` field with the tag recomputed
over the zero-tagged frame, leaves every other field unchanged, and
returns true exactly when the received tag it overwrote equals that
recomputed tag. -/
theorem md5_verify_overwrites_tag (H : Pack → List Nat) (f : Pack) :
    (UTP_MD5_VERIFY H f).1 = UTP_MD5_ADD H f ∧
    (UTP_MD5_VERIFY H f).1.md5 = H (zeroMd5 f) ∧
    (UTP_MD5_VERIFY H f).1.size = f.size ∧
    (UTP_MD5_VERIFY H f).1.seq = f.seq ∧
    (UTP_MD5_VERIFY H f).1.time = f.time ∧
    (UTP_MD5_VERIFY H f).1.flags = f.flags ∧
    (UTP_MD5_VERIFY H f).1.msg = f.msg ∧
    ((UTP_MD5_VERIFY H f).2 = true ↔ f.md5 = H (zeroMd5 f)) := by
  refine ⟨rfl, rfl, rfl, rfl, rfl, rfl, rfl, ?_⟩
  simp [UTP_MD5_VERIFY, UTP_MD5_ADD]

/-- C3 counterexample: the peers do not always adopt the minimum of the
two proposals.  With proposals 0 and 5 the minimum is 0, but
`UTP_FORCE_WINDOW_SIZE` rejects any value not exceeding 1, so the
listener (whose global starts at 1) keeps 1; likewise the payload global
(starting at the handshake size 16) keeps 16 on proposals 1 and 5. -/
theorem negotiated_size_not_min :
    UTP_SET_WINDOW_SIZE 1 0 5 ≠ min (0 : Int) 5 ∧
    UTP_SET_PAYLOAD_SIZE 16 1 5 ≠ min (1 : Int) 5 := by
  constructor <;> decide

/-- C3 amended: whenever the minimum of the two proposals exceeds 1, each
side adopts that minimum.  The listener negotiates
`min serverProp clientProp` directly; the initiator then negotiates
against the listener's already-negotiated value and reaches the same
minimum.  (A minimum of at most 1 is rejected and the previous global
size is kept.) -/
theorem negotiated_size_min_above_one (curS curC a b : Int) (h : 1 < min a b) :
    UTP_SET_WINDOW_SIZE curS b a = min a b ∧
    UTP_SET_WINDOW_SIZE curC a (UTP_SET_WINDOW_SIZE curS b a) = min a b ∧
    UTP_SET_PAYLOAD_SIZE curS b a = min a b ∧
    UTP_SET_PAYLOAD_SIZE curC a (UTP_SET_PAYLOAD_SIZE curS b a) = min a b := by
  rw [lt_min_iff] at h
  unfold UTP_SET_WINDOW_SIZE UTP_SET_PAYLOAD_SIZE
    UTP_FORCE_WINDOW_SIZE UTP_FORCE_PAYLOAD_SIZE
  rcases le_or_lt a b with hab | hab
  · rw [min_eq_left hab]
    split_ifs <;> omega
  · rw [min_eq_right hab.le]
    split_ifs <;> omega

/-- C3 amended witness: concrete negotiation with proposals 4 and 7 from
the default initial globals. -/
theorem negotiated_size_min_above_one_witness :
    UTP_SET_WINDOW_SIZE 1 7 4 = min (4 : Int) 7 ∧
    UTP_SET_WINDOW_SIZE 16 4 (UTP_SET_WINDOW_SIZE 1 7 4) = min (4 : Int) 7 ∧
    UTP_SET_PAYLOAD_SIZE 1 7 4 = min (4 : Int) 7 ∧
    UTP_SET_PAYLOAD_SIZE 16 4 (UTP_SET_PAYLOAD_SIZE 1 7 4) = min (4 : Int) 7 :=
  negotiated_size_min_above_one 1 16 4 7 (by decide)

theorem runLen_le_length (w : List Pack) (n : Int) : runLen w n ≤ w.length := by
  induction w generalizing n with
  | nil => simp [runLen]
  | cons x xs ih =>
    simp only [runLen, List.length_cons]
    split
    · exact Nat.succ_le_succ (ih (n + 1))
    · exact Nat.zero_le _

theorem runLen_append_of_lt (ys zs : List Pack) (m : Int)
    (h : runLen ys m < ys.length) : runLen (ys ++ zs) m = runLen ys m := by
  induction ys generalizing m with
  | nil => simp at h
  | cons y t ih =>
    simp only [runLen, List.cons_append, List.length_cons, List.append_eq] at h ⊢
    split
    · next hy =>
      rw [if_pos hy] at h
      rw [ih (m + 1) (by omega)]
    · rfl

theorem runLen_append_of_full (ys zs : List Pack) (m : Int)
    (h : runLen ys m = ys.length) :
    runLen (ys ++ zs) m = ys.length + runLen zs (m + ys.length) := by
  induction ys generalizing m with
  | nil => simp [runLen]
  | cons y t ih =>
    simp only [runLen, List.length_cons] at h
    by_cases hy : y.seq = m
    · rw [if_pos hy] at h
      simp only [List.cons_append, runLen, if_pos hy, List.length_cons, List.append_eq]
      rw [ih (m + 1) (by omega)]
      push_cast
      ring_nf
    · rw [if_neg hy] at h
      omega

theorem seq_of_runLen (w : List Pack) (n : Int) (i : Nat)
    (hi : i < runLen w n) : seqAt w i = n + i := by
  induction w generalizing n i with
  | nil => simp [runLen] at hi
  | cons x xs ih =>
    simp only [runLen] at hi
    by_cases hx : x.seq = n
    · rw [if_pos hx] at hi
      cases i with
      | zero => simpa [seqAt, List.getD] using hx
      | succ j =>
        have := ih (n + 1) j (by omega)
        simp only [seqAt, List.getD_cons_succ] at this ⊢
        rw [this]
        push_cast
        ring
    · rw [if_neg hx] at hi
      omega

theorem drop_length_sub_one {α : Type} (l : List α) (h : l ≠ []) :
    ∃ e, l.drop (l.length - 1) = [e] ∧ l[l.length - 1]? = some e := by
  induction l with
  | nil => exact absurd rfl h
  | cons x t ih =>
    cases t with
    | nil => exact ⟨x, rfl, rfl⟩
    | cons y s =>
      obtain ⟨e, he1, he2⟩ := ih (by simp)
      refine ⟨e, ?_, ?_⟩
      · simpa using he1
      · simpa using he2

theorem runLen_single (e : Pack) (m : Int) (h : e.seq ≠ m) : runLen [e] m = 0 := by
  simp [runLen, h]

theorem runLen_slide (x : Pack) (xs : List Pack) (n : Int) (hx : x.seq = n) :
    runLen (slide (x :: xs)) (n + 1) = runLen xs (n + 1) := by
  obtain ⟨e, he, heq⟩ := drop_length_sub_one (x :: xs) (by simp)
  have hslide : slide (x :: xs) = xs ++ [e] := by
    simp only [slide, List.drop_one, List.tail_cons]
    rw [he]
  rw [hslide]
  rcases Nat.lt_or_ge (runLen xs (n + 1)) xs.length with hlt | hge
  · exact runLen_append_of_lt xs [e] (n + 1) hlt
  · have hfull : runLen xs (n + 1) = xs.length :=
      le_antisymm (runLen_le_length xs (n + 1)) hge
    have he0 : e.seq ≠ n + 1 + xs.length := by
      cases xs with
      | nil =>
        have hex : e = x := by simpa using heq.symm
        subst hex
        simp only [List.length_nil]
        omega
      | cons y s =>
        have hlen : (y :: s).length - 1 < (y :: s).length := by simp
        have h1 : (y :: s)[(y :: s).length - 1]? = some e := by
          have : (x :: y :: s).length - 1 = s.length + 1 := by simp
          rw [this] at heq
          rw [List.getElem?_cons_succ] at heq
          simpa using heq
        have h2 : (y :: s).getD ((y :: s).length - 1) (zeroPack 0) = e := by
          rw [List.getElem?_eq_getElem hlen] at h1
          rw [List.getD_eq_getElem _ _ hlen]
          exact Option.some.inj h1
        have h3 : seqAt (y :: s) ((y :: s).length - 1) =
            (n + 1) + ((y :: s).length - 1 : Nat) := by
          apply seq_of_runLen
          rw [hfull]
          simp
        rw [seqAt, h2] at h3
        rw [h3]
        have hl : (1 : Int) ≤ (y :: s).length := by
          simp only [List.length_cons]
          push_cast
          omega
        push_cast [List.length_cons] at hl ⊢
        omega
    rw [runLen_append_of_full xs [e] (n + 1) hfull, hfull,
      runLen_single e (n + 1 + xs.length) he0]
    omega

theorem processReceivedGo_spec (fuel : Nat) :
    ∀ (w : List Pack) (n : Int) (out : List Nat) (fl : List (List Nat)),
    runLen w n < fuel →
    processReceivedGo fuel w n out fl =
      (slide^[runLen w n] w, n + (runLen w n : Int),
        (deliverRun (w.take (runLen w n)) out fl).1,
        (deliverRun (w.take (runLen w n)) out fl).2) := by
  induction fuel with
  | zero => intro w n out fl h; omega
  | succ fuel ih =>
    intro w n out fl h
    match w with
    | [] =>
      simp [processReceivedGo, runLen, deliverRun]
    | x :: xs =>
      by_cases hx : x.seq = n
      · have hrun : runLen (x :: xs) n = runLen xs (n + 1) + 1 := by
          simp [runLen, hx]
        rw [hrun] at h ⊢
        have hk := runLen_slide x xs n hx
        simp only [processReceivedGo, if_pos hx]
        rw [ih (slide (x :: xs)) (n + 1) (deliverStep (out, fl) x).1
          (deliverStep (out, fl) x).2 (by omega), hk]
        refine congrArg₂ _ ?_ (congrArg₂ _ ?_ ?_)
        · rw [← Function.iterate_succ_apply]
        · push_cast
          ring_nf
        · obtain ⟨e, he, -⟩ := drop_length_sub_one (x :: xs) (by simp)
          have hslide : slide (x :: xs) = xs ++ [e] := by
            simp only [slide, List.drop_one, List.tail_cons]
            rw [he]
          have htake : (slide (x :: xs)).take (runLen xs (n + 1)) =
              xs.take (runLen xs (n + 1)) := by
            rw [hslide]
            exact List.take_append_of_le_length (runLen_le_length xs (n + 1))
          rw [htake]
          have hcons : (x :: xs).take (runLen xs (n + 1) + 1) =
              x :: xs.take (runLen xs (n + 1)) := rfl
          rw [hcons]
          simp only [deliverRun, List.foldl_cons]
      · have hrun : runLen (x :: xs) n = 0 := by simp [runLen, hx]
        simp only [processReceivedGo, if_neg hx, hrun]
        simp [deliverRun]

/-- C1: `processReceived` delivers exactly the maximal contiguous run.
For every state of the receive window and tracker, it appends to the
delivery buffer exactly the payloads (first `size` bytes) of the maximal
contiguous run of frames `recv[0], recv[1], …` whose stored sequence
numbers equal `recvNext, recvNext + 1, …` in increasing order, flushes
and resets the delivery buffer exactly at the frames of that run carrying
the END modifier, slides once and increments `recvNext` once per
delivered frame — that is, the code function coincides with the function
written from the spec's words. -/
theorem processReceived_eq_spec (w : List Pack) (n : Int) (out : List Nat) :
    processReceived w n out = processReceivedSpec w n out := by
  unfold processReceived processReceivedSpec
  rw [processReceivedGo_spec (w.length + 1) w n out []
    (by have := runLen_le_length w n; omega)]

/-- C8 counterexample: slot `W−1` does not become unused.  In the
two-slot window `[c8a, c8b]` with both slots live (sequences 7 and 8),
sliding produces `[c8b, c8b]`: slot `W−1` still holds the live frame
`c8b` — byte-for-byte the frame that was there before the slide — rather
than holding no live frame.  Its stored sequence 8 still lies inside the
live span, duplicating the frame now at slot `W−2`. -/
theorem slide_last_slot_retained :
    slide [c8a, c8b] = [c8b, c8b] ∧
    seqAt (slide [c8a, c8b]) 1 = 8 ∧ c8b.seq = 8 ∧ c8a ≠ c8b := by
  refine ⟨rfl, rfl, rfl, by decide⟩

/-- C8 amended: `slide` shifts all slots left by one frame — slot 0 is
discarded and slot `i` receives the previous contents of slot `i + 1` for
`i ∈ [0, W−2]` — but slot `W−1` is left unchanged, retaining a stale
duplicate of the previous last frame instead of becoming unused.  The
paired use with a base increment keeps the seq-index discipline: if the
live slots `0 … k` satisfy `seq = next + i`, then after one slide the
slots `0 … k−1` satisfy `seq = (next + 1) + i`, so the live region
shrinks by one slot and the slots beyond it are never treated as live by
the seq-indexed scans. -/
theorem slide_shifts_left (w : List Pack) (next : Int) (k : Nat) :
    (slide w).length = w.length ∧
    (∀ i : Nat, i + 1 < w.length → (slide w)[i]? = w[i + 1]?) ∧
    (0 < w.length → (slide w)[w.length - 1]? = w[w.length - 1]?) ∧
    (k < w.length → (∀ i : Nat, i ≤ k → seqAt w i = next + i) →
      ∀ i : Nat, i + 1 ≤ k → seqAt (slide w) i = (next + 1) + i) := by
  have hlen : (slide w).length = w.length := by
    simp only [slide, List.length_append, List.length_drop]
    omega
  have hshift : ∀ i : Nat, i + 1 < w.length → (slide w)[i]? = w[i + 1]? := by
    intro i hi
    unfold slide
    rw [List.getElem?_append_left (by simp [List.length_drop]; omega)]
    rw [List.getElem?_drop]
    congr 1
    omega
  refine ⟨hlen, hshift, ?_, ?_⟩
  · intro hw
    unfold slide
    rw [List.getElem?_append_right (by simp only [List.length_drop]; omega)]
    rw [List.getElem?_drop]
    congr 1
    simp only [List.length_drop]
    omega
  · intro hk hdisc i hik
    have hi1 : i + 1 < w.length := by omega
    have := hshift i hi1
    have hgd : seqAt (slide w) i = seqAt w (i + 1) := by
      unfold seqAt
      rw [List.getD_eq_getElem _ _ (by omega : i < (slide w).length),
        List.getD_eq_getElem _ _ hi1]
      have h1 : (slide w)[i]?.getD (zeroPack 0) = w[i + 1]?.getD (zeroPack 0) := by
        rw [this]
      rw [List.getElem?_eq_getElem (by omega : i < (slide w).length),
        List.getElem?_eq_getElem hi1, Option.getD_some, Option.getD_some] at h1
      exact congrArg Pack.seq h1
    rw [hgd, hdisc (i + 1) (by omega)]
    push_cast
    ring

/-- C8 amended witness: the shift, last-slot retention and discipline
conclusions at the concrete two-slot window, with every hypothesis
discharged. -/
theorem slide_shifts_left_witness :
    (slide [c8a, c8b]).length = 2 ∧
    (slide [c8a, c8b])[0]? = [c8a, c8b][1]? ∧
    (slide [c8a, c8b])[1]? = [c8a, c8b][1]? ∧
    seqAt (slide [c8a, c8b]) 0 = (7 + 1) + 0 := by
  have h := slide_shifts_left [c8a, c8b] 7 1
  refine ⟨h.1, h.2.1 0 (by decide), h.2.2.1 (by decide), ?_⟩
  refine h.2.2.2 (by decide) ?_ 0 (by decide)
  intro i hi
  match i, hi with
  | 0, _ => rfl
  | 1, _ => rfl

theorem UTP_MD5_VERIFY_valid (H : Pack → List Nat) (f : Pack)
    (h : H (zeroMd5 f) = f.md5) : UTP_MD5_VERIFY H f = (f, true) := by
  unfold UTP_MD5_VERIFY UTP_MD5_ADD
  simp only [h]
  constructor

theorem UTP_MD5_VERIFY_invalid (H : Pack → List Nat) (f : Pack)
    (h : H (zeroMd5 f) ≠ f.md5) : (UTP_MD5_VERIFY H f).2 = false := by
  simp only [UTP_MD5_VERIFY, UTP_MD5_ADD, decide_eq_false_iff_not]
  exact fun hc => h hc.symm

theorem UTP_MD5_ADD_flags (H : Pack → List Nat) (f : Pack) :
    (UTP_MD5_ADD H f).flags = f.flags := rfl

theorem processReceived_next_ge (w : List Pack) (n : Int) (out : List Nat) :
    n ≤ (processReceived w n out).2.1 := by
  unfold processReceived
  rw [processReceivedGo_spec (w.length + 1) w n out []
    (by have := runLen_le_length w n; omega)]
  simp only [processReceivedSpec]
  omega

theorem slideWindowGo_next_ge (fuel : Nat) :
    ∀ s : SwSt, s.sendNext ≤ (slideWindowGo fuel s).sendNext := by
  induction fuel with
  | zero => intro s; exact le_refl _
  | succ fuel ih =>
    intro s
    rcases hs : s.acksW with _ | ⟨a, rest⟩
    · simp [slideWindowGo, hs]
    · simp only [slideWindowGo, hs]
      split
      · refine le_trans ?_ (ih ⟨slide s.sendW, slide (a :: rest), s.sendNext + 1, s.frameCount - 1⟩)
        show s.sendNext ≤ s.sendNext + 1
        omega
      · exact le_refl _

theorem sendFramesGo_inv (wsize : Int) (psize : Nat) (H : Pack → List Nat)
    (now : Int) (fuel : Nat) :
    ∀ s : SendSt, s.seqSend = s.sendNext + s.frameCount → 0 ≤ s.frameCount →
    s.frameCount ≤ wsize → s.sendLast - s.sendNext < wsize →
    (sendFramesGo wsize psize H now fuel s).seqSend =
        (sendFramesGo wsize psize H now fuel s).sendNext +
          (sendFramesGo wsize psize H now fuel s).frameCount ∧
      0 ≤ (sendFramesGo wsize psize H now fuel s).frameCount ∧
      (sendFramesGo wsize psize H now fuel s).frameCount ≤ wsize ∧
      (sendFramesGo wsize psize H now fuel s).sendLast -
          (sendFramesGo wsize psize H now fuel s).sendNext < wsize ∧
      (sendFramesGo wsize psize H now fuel s).sendNext = s.sendNext := by
  induction fuel with
  | zero => intro s h1 h2 h3 h4; exact ⟨h1, h2, h3, h4, rfl⟩
  | succ fuel ih =>
    intro s h1 h2 h3 h4
    by_cases hg : s.frameCount < wsize ∧ 0 < s.input.length
    · simp only [sendFramesGo, if_pos hg]
      have hseq : (UTP_SEND H now
          (UTP_PACK_MESSAGE psize s.input s.seqSend MSG (zeroPack psize))).seq =
          s.seqSend := rfl
      refine ih _ ?_ ?_ ?_ ?_ <;> simp only [hseq] <;> omega
    · unfold sendFramesGo
      rw [if_neg hg]
      exact ⟨h1, h2, h3, h4, rfl⟩

/-- C2 counterexample: the bounds do not hold at every observation point.
Immediately after tracker initialization with the clock-seeded initial
sequences (here `conn.seqSend = 100`, `conn.seqRecv = 200`, as in
main.c:392–395 where `sendLast = recvLast = 0`), both
`send_last − send_next` and `recv_last − recv_next` are negative. -/
theorem tracker_bounds_fail_at_init :
    ¬ (0 ≤ (trackerInit 100 200).sendLast - (trackerInit 100 200).sendNext) ∧
    ¬ (0 ≤ (trackerInit 100 200).recvLast - (trackerInit 100 200).recvNext) := by
  constructor <;> decide

/-- C2 amended: the window engine does reject inserts that would violate
the bounds, and the upper bounds are preserved by the event-loop
branches, but the lower bounds `0 ≤ last − next` do not hold at every
observation point (they fail at tracker initialization, whose counters
start at `−seq_send` and `−seq_recv − 1`).  Concretely: the MSG branch
leaves window and tracker untouched when the sequence is out of span;
an in-span insert lands at an index inside the `W` slots; the MSG branch
preserves `recv_last − recv_next < W`; the ACK branch leaves `acks`
untouched out of span and only advances `send_next`; and `sendFrames`
preserves the frame-count consistency invariant
(`seq_send = send_next + frame_count`, `0 ≤ frame_count ≤ W`) together
with `send_last − send_next < W`. -/
theorem window_bounds_guarded (wsize : Int) (psize : Nat) (H : Pack → List Nat)
    (now : Int) (f : Pack) (st : EvState) (s : SendSt) :
    (sequenceInSpan wsize f.seq st.status.recvNext = false →
      (msgCase wsize psize H now f st).1.recvW = st.recvW ∧
      (msgCase wsize psize H now f st).1.status = st.status) ∧
    (sequenceInSpan wsize f.seq st.status.recvNext = true →
      st.recvW.length = wsize.toNat →
      (f.seq - st.status.recvNext).toNat < st.recvW.length) ∧
    (st.status.recvLast - st.status.recvNext < wsize →
      (msgCase wsize psize H now f st).1.status.recvLast -
        (msgCase wsize psize H now f st).1.status.recvNext < wsize) ∧
    (sequenceInSpan wsize f.seq st.status.sendNext = false →
      (ackCase wsize psize H now f st).1.acksW = st.acksW) ∧
    st.status.sendNext ≤ (ackCase wsize psize H now f st).1.status.sendNext ∧
    (s.seqSend = s.sendNext + s.frameCount → 0 ≤ s.frameCount →
      s.frameCount ≤ wsize → s.sendLast - s.sendNext < wsize →
      (sendFrames wsize psize H now s).seqSend =
          (sendFrames wsize psize H now s).sendNext +
            (sendFrames wsize psize H now s).frameCount ∧
        0 ≤ (sendFrames wsize psize H now s).frameCount ∧
        (sendFrames wsize psize H now s).frameCount ≤ wsize ∧
        (sendFrames wsize psize H now s).sendLast -
          (sendFrames wsize psize H now s).sendNext < wsize) := by
  refine ⟨?_, ?_, ?_, ?_, ?_, ?_⟩
  · intro hspan
    simp [msgCase, hspan]
  · intro hspan hlen
    simp only [sequenceInSpan, Bool.and_eq_true, decide_eq_true_eq] at hspan
    omega
  · intro hbound
    by_cases hspan : sequenceInSpan wsize f.seq st.status.recvNext
    · have hspan2 := hspan
      simp only [sequenceInSpan, Bool.and_eq_true, decide_eq_true_eq] at hspan2
      simp only [msgCase, if_pos hspan]
      have hge := processReceived_next_ge
        (insertFrame st.recvW f f.seq st.status.recvNext) st.status.recvNext st.out
      split <;> omega
    · simp only [msgCase, if_neg hspan]
      exact hbound
  · intro hspan
    simp [ackCase, hspan]
  · by_cases hspan : sequenceInSpan wsize f.seq st.status.sendNext
    · simp only [ackCase, if_pos hspan]
      exact slideWindowGo_next_ge _ _
    · simp [ackCase, hspan]
  · intro h1 h2 h3 h4
    have := sendFramesGo_inv wsize psize H now
      (wsize - s.frameCount).toNat s h1 h2 h3 h4
    exact ⟨this.1, this.2.1, this.2.2.1, this.2.2.2.1⟩

/-- C2 amended witness: the guarded-insert and bound-preservation
conclusions at concrete states, every hypothesis discharged by
evaluation. -/
theorem window_bounds_guarded_witness :
    ((msgCase 2 2 constH 0 c2f c2stOut).1.recvW = c2stOut.recvW ∧
      (msgCase 2 2 constH 0 c2f c2stOut).1.status = c2stOut.status) ∧
    (c2f.seq - c2stIn.status.recvNext).toNat < c2stIn.recvW.length ∧
    ((msgCase 2 2 constH 0 c2f c2stIn).1.status.recvLast -
      (msgCase 2 2 constH 0 c2f c2stIn).1.status.recvNext < 2) ∧
    (ackCase 2 2 constH 0 c2f c2stOut).1.acksW = c2stOut.acksW ∧
    c2stIn.status.sendNext ≤ (ackCase 2 2 constH 0 c2f c2stIn).1.status.sendNext ∧
    ((sendFrames 2 2 constH 0 c2s).seqSend =
        (sendFrames 2 2 constH 0 c2s).sendNext +
          (sendFrames 2 2 constH 0 c2s).frameCount ∧
      0 ≤ (sendFrames 2 2 constH 0 c2s).frameCount ∧
      (sendFrames 2 2 constH 0 c2s).frameCount ≤ 2 ∧
      (sendFrames 2 2 constH 0 c2s).sendLast -
        (sendFrames 2 2 constH 0 c2s).sendNext < 2) :=
  ⟨(window_bounds_guarded 2 2 constH 0 c2f c2stOut c2s).1 (by decide),
    (window_bounds_guarded 2 2 constH 0 c2f c2stIn c2s).2.1 (by decide) (by decide),
    (window_bounds_guarded 2 2 constH 0 c2f c2stIn c2s).2.2.1 (by decide),
    (window_bounds_guarded 2 2 constH 0 c2f c2stOut c2s).2.2.2.1 (by decide),
    (window_bounds_guarded 2 2 constH 0 c2f c2stIn c2s).2.2.2.2.1,
    (window_bounds_guarded 2 2 constH 0 c2f c2stIn c2s).2.2.2.2.2
      (by decide) (by decide) (by decide) (by decide)⟩

/-- C4: every received MSG frame whose integrity verification succeeds
elicits exactly one ACK reply carrying the same `seq` as the MSG — the
event step sends exactly the one frame packed as an ACK with `seq` equal
to the incoming frame's — and an out-of-window MSG is otherwise dropped:
the receive window, the tracker, the delivery buffer and the flushed
messages are all left unchanged. -/
theorem msg_elicits_one_ack (wsize : Int) (psize : Nat) (H : Pack → List Nat)
    (now : Int) (f : Pack) (line : Option (List Nat)) (td : List Outcome)
    (st : EvState) (hver : H (zeroMd5 f) = f.md5)
    (hty : UTP_TYPE f.flags = MSG) :
    eventStep wsize psize H now (Outcome.deliver f) line td st =
      Except.ok ((msgCase wsize psize H now f { st with scratch := f }).1,
        [UTP_SEND H now (UTP_PACK_PROPERTIES psize 0 f.seq ACK f)]) ∧
    (sequenceInSpan wsize f.seq st.status.recvNext = false →
      (msgCase wsize psize H now f { st with scratch := f }).1.recvW = st.recvW ∧
      (msgCase wsize psize H now f { st with scratch := f }).1.status = st.status ∧
      (msgCase wsize psize H now f { st with scratch := f }).1.out = st.out ∧
      (msgCase wsize psize H now f { st with scratch := f }).1.flushed = st.flushed) := by
  constructor
  · have hv := UTP_MD5_VERIFY_valid H f hver
    simp only [eventStep, UTP_RECV, hv, hty]
    norm_num [MSG, NAK]
    rfl
  · intro hspan
    simp only [msgCase]
    rw [if_neg (by simp [hspan])]
    exact ⟨rfl, rfl, rfl, rfl⟩

/-- C4 witness: a verified out-of-window MSG at a concrete state elicits
exactly the one same-`seq` ACK and is dropped. -/
theorem msg_elicits_one_ack_witness :
    (eventStep 2 2 constH 0 (Outcome.deliver c4f) none [] c4st =
      Except.ok ((msgCase 2 2 constH 0 c4f { c4st with scratch := c4f }).1,
        [UTP_SEND constH 0 (UTP_PACK_PROPERTIES 2 0 c4f.seq ACK c4f)])) ∧
    (msgCase 2 2 constH 0 c4f { c4st with scratch := c4f }).1.recvW = c4st.recvW ∧
    (msgCase 2 2 constH 0 c4f { c4st with scratch := c4f }).1.status = c4st.status ∧
    (msgCase 2 2 constH 0 c4f { c4st with scratch := c4f }).1.out = c4st.out ∧
    (msgCase 2 2 constH 0 c4f { c4st with scratch := c4f }).1.flushed = c4st.flushed :=
  ⟨(msg_elicits_one_ack 2 2 constH 0 c4f none [] c4st (by decide) (by decide)).1,
    (msg_elicits_one_ack 2 2 constH 0 c4f none [] c4st (by decide) (by decide)).2
      (by decide)⟩

/-- C6 counterexample: a receive whose integrity verification fails is
not treated by every caller as if no datagram had arrived.  The frame
`c6ack` fails verification (its tag is not the digest of the zero-tagged
frame), yet `UTP_CLOSE_RECV` — which tests the clobbered frame buffer's
flags without consulting the recv result — accepts its ACK flags and
returns 1, while the same call with a timeout in that position loops on
and returns 0. -/
theorem close_recv_accepts_corrupt_ack :
    constH (zeroMd5 c6ack) ≠ c6ack.md5 ∧
    (UTP_CLOSE_RECV constH 0 2 [Outcome.deliver c6ack]).1 = true ∧
    (UTP_CLOSE_RECV constH 0 2 [Outcome.timeout]).1 = false := by
  refine ⟨by decide, by decide, by decide⟩

/-- C6 amended: `UTP_RECV` reports an integrity failure exactly like a
timeout (both return 0), and the event loop consequently makes the same
transition in both cases on every protocol-visible component — only the
shared frame scratch, which the failed receive has clobbered, can
differ.  The handshake and teardown loops, however, test that clobbered
scratch, so they are not covered by this equivalence (see the
counterexample). -/
theorem integrity_failure_like_timeout (wsize : Int) (psize : Nat)
    (H : Pack → List Nat) (now : Int) (c : Pack) (line : Option (List Nat))
    (td : List Outcome) (st : EvState) (hbad : H (zeroMd5 c) ≠ c.md5) :
    (UTP_RECV H (some (Outcome.deliver c)) st.scratch).2 = false ∧
    (UTP_RECV H (some Outcome.timeout) st.scratch).2 = false ∧
    Except.map (fun p => (obsOf p.1, p.2))
        (eventStep wsize psize H now (Outcome.deliver c) line td st) =
      Except.map (fun p => (obsOf p.1, p.2))
        (eventStep wsize psize H now Outcome.timeout line td st) := by
  have hfalse := UTP_MD5_VERIFY_invalid H c hbad
  refine ⟨hfalse, rfl, ?_⟩
  simp only [eventStep, UTP_RECV, hfalse, Bool.false_eq_true, if_false]
  cases line with
  | none => rfl
  | some l =>
    by_cases hq : l = quitMsg
    · simp only [hq, if_pos rfl]
      rfl
    · simp only [if_neg hq]
      rfl

/-- C6 amended witness: the equivalence at a concrete corrupt frame and
state, the integrity-failure hypothesis discharged by evaluation. -/
theorem integrity_failure_like_timeout_witness :
    (UTP_RECV constH (some (Outcome.deliver c6ack)) c6st.scratch).2 = false ∧
    (UTP_RECV constH (some Outcome.timeout) c6st.scratch).2 = false ∧
    Except.map (fun p => (obsOf p.1, p.2))
        (eventStep 2 2 constH 0 (Outcome.deliver c6ack) (some [72, 10]) [] c6st) =
      Except.map (fun p => (obsOf p.1, p.2))
        (eventStep 2 2 constH 0 Outcome.timeout (some [72, 10]) [] c6st) :=
  integrity_failure_like_timeout 2 2 constH 0 c6ack (some [72, 10]) [] c6st (by decide)

/-- C7 counterexample: not every received NAK yields a valid in-bounds
read.  The verified NAK `c7f` carries `seq = 5` while the tracker's
`send_next` is 10, so the handler reads `send[−5]` — outside the W-slot
send window (the event step surfaces the unchecked out-of-bounds access
as an error carrying the index). -/
theorem nak_unchecked_oob :
    constH (zeroMd5 c7f) = c7f.md5 ∧ UTP_TYPE c7f.flags = NAK ∧
    eventStep 2 2 constH 0 (Outcome.deliver c7f) none [] c7st =
      Except.error (-5) := by
  refine ⟨by decide, by decide, rfl⟩

/-- C7 amended: on a verified NAK the handler immediately re-sends the
frame stored at `send[seq − send_next]`, consulting no timeout — but it
performs no bounds check, so the access is a valid in-bounds read
exactly when `0 ≤ seq − send_next < W` (that is, when `sequenceInSpan`
would hold, though the NAK branch never tests it); outside that span the
read is out of bounds. -/
theorem nak_resend_bounds (wsize : Int) (psize : Nat) (H : Pack → List Nat)
    (now : Int) (f : Pack) (line : Option (List Nat)) (td : List Outcome)
    (st : EvState) (hver : H (zeroMd5 f) = f.md5)
    (hty : UTP_TYPE f.flags = NAK) :
    (st.sendW.length = wsize.toNat → 0 ≤ wsize →
      ((0 ≤ f.seq - st.status.sendNext ∧
          f.seq - st.status.sendNext < (st.sendW.length : Int)) ↔
        sequenceInSpan wsize f.seq st.status.sendNext = true)) ∧
    (∀ h : 0 ≤ f.seq - st.status.sendNext ∧
        f.seq - st.status.sendNext < (st.sendW.length : Int),
      eventStep wsize psize H now (Outcome.deliver f) line td st =
        Except.ok ({ st with
          scratch := f,
          sendW := st.sendW.set (f.seq - st.status.sendNext).toNat
            (UTP_SEND H now
              (st.sendW.get ⟨(f.seq - st.status.sendNext).toNat, by omega⟩)) },
          [UTP_SEND H now
            (st.sendW.get ⟨(f.seq - st.status.sendNext).toNat, by omega⟩)])) ∧
    (¬ (0 ≤ f.seq - st.status.sendNext ∧
        f.seq - st.status.sendNext < (st.sendW.length : Int)) →
      eventStep wsize psize H now (Outcome.deliver f) line td st =
        Except.error (f.seq - st.status.sendNext)) := by
  have hv := UTP_MD5_VERIFY_valid H f hver
  have hstep : eventStep wsize psize H now (Outcome.deliver f) line td st =
      nakCase H now f { st with scratch := f } := by
    simp only [eventStep, UTP_RECV, hv, hty]
    norm_num
  refine ⟨?_, ?_, ?_⟩
  · intro hlen hw
    simp only [sequenceInSpan, Bool.and_eq_true, decide_eq_true_eq]
    constructor <;> intro hc <;> constructor <;> omega
  · intro h
    rw [hstep]
    unfold nakCase
    rw [dif_pos h]
  · intro h
    rw [hstep]
    unfold nakCase
    rw [dif_neg h]

/-- C7 amended witness: a verified in-window NAK (`seq = 11` against
`send_next = 10`, window of 2 slots) re-sends exactly the stored frame at
slot 1, and the in-bounds characterization holds, all hypotheses
discharged by evaluation. -/
theorem nak_resend_bounds_witness :
    ((0 ≤ c7g.seq - c7st.status.sendNext ∧
        c7g.seq - c7st.status.sendNext < (c7st.sendW.length : Int)) ↔
      sequenceInSpan 2 c7g.seq c7st.status.sendNext = true) ∧
    eventStep 2 2 constH 0 (Outcome.deliver c7g) none [] c7st =
      Except.ok ({ c7st with
        scratch := c7g,
        sendW := c7st.sendW.set 1
          (UTP_SEND constH 0 (c7st.sendW.get ⟨1, by decide⟩)) },
        [UTP_SEND constH 0 (c7st.sendW.get ⟨1, by decide⟩)]) :=
  ⟨(nak_resend_bounds 2 2 constH 0 c7g none [] c7st (by decide) (by decide)).1
      (by decide) (by decide),
    (nak_resend_bounds 2 2 constH 0 c7g none [] c7st (by decide) (by decide)).2.1
      ⟨by decide, by decide⟩⟩

/-! ## C9: teardown budget -/

theorem close_send_fin_timeout (H : Pack → List Nat) (now : Int) (psize : Nat) :
    ∀ (c : Nat) (fuel : Nat) (f : Pack) (seqS : Int) (tr : List Outcome)
      (sent : List Pack),
    c + 1 ≤ fuel →
    UTP_FLAG_EXACT f (FIN ||| ACK) = false →
    (∀ o ∈ tr.take c, isFinAckDeliver o = false) →
    (UTP_CLOSE_SEND_fin H now psize fuel f seqS ((c : Int) - 1) tr sent).ok = false ∧
    (UTP_CLOSE_SEND_fin H now psize fuel f seqS ((c : Int) - 1) tr sent).sent.length =
      sent.length + (c + 1) := by
  intro c
  induction c with
  | zero =>
    intro fuel f seqS tr sent hfuel hflag htr
    obtain ⟨g, rfl⟩ : ∃ g, fuel = g + 1 := ⟨fuel - 1, by omega⟩
    simp only [UTP_CLOSE_SEND_fin, hflag, Bool.false_eq_true, if_false]
    rw [if_pos (by norm_num : ((0 : Nat) : Int) - 1 < 0)]
    simp [List.length_append]
  | succ c ih =>
    intro fuel f seqS tr sent hfuel hflag htr
    obtain ⟨g, rfl⟩ : ∃ g, fuel = g + 1 := ⟨fuel - 1, by omega⟩
    simp only [UTP_CLOSE_SEND_fin, hflag, Bool.false_eq_true, if_false]
    rw [if_neg (by push_cast; omega : ¬ (((c + 1 : Nat) : Int) - 1 < 0))]
    have hcd : ((c + 1 : Nat) : Int) - 1 - 1 = ((c : Nat) : Int) - 1 := by
      push_cast
      ring
    rw [hcd]
    have hflag2 : UTP_FLAG_EXACT
        (UTP_RECV H tr.head?
          (UTP_SEND H now (UTP_PACK_PROPERTIES psize 0 seqS FIN f))).1
        (FIN ||| ACK) = false := by
      cases tr with
      | nil => rfl
      | cons o rest =>
        cases o with
        | timeout => rfl
        | deliver gg =>
          have hg : isFinAckDeliver (Outcome.deliver gg) = false :=
            htr (Outcome.deliver gg) (by simp)
          simpa [UTP_RECV, UTP_MD5_VERIFY, UTP_MD5_ADD, isFinAckDeliver,
            UTP_FLAG_EXACT] using hg
    have htr2 : ∀ o ∈ tr.tail.take c, isFinAckDeliver o = false := by
      cases tr with
      | nil => intro o ho; simp at ho
      | cons o rest =>
        intro p hp
        exact htr p (by simp only [List.take_succ_cons, List.tail_cons]; exact List.mem_cons_of_mem _ hp)
    have := ih g
      (UTP_RECV H tr.head? (UTP_SEND H now (UTP_PACK_PROPERTIES psize 0 seqS FIN f))).1
      (seqS + 1) tr.tail
      (sent ++ [UTP_SEND H now (UTP_PACK_PROPERTIES psize 0 seqS FIN f)])
      (by omega) hflag2 htr2
    refine ⟨this.1, ?_⟩
    rw [this.2]
    simp only [List.length_append, List.length_cons, List.length_nil]
    omega

theorem close_send_fin_success (H : Pack → List Nat) (now : Int) (psize : Nat) :
    ∀ (pre : List Outcome) (fuel : Nat) (f : Pack) (seqS : Int) (cd : Int)
      (fa : Pack) (rest : List Outcome) (sent : List Pack),
    pre.length + 2 ≤ fuel → (pre.length : Int) ≤ cd →
    UTP_FLAG_EXACT f (FIN ||| ACK) = false →
    (∀ o ∈ pre, isFinAckDeliver o = false) →
    UTP_FLAG_EXACT fa (FIN ||| ACK) = true →
    (UTP_CLOSE_SEND_fin H now psize fuel f seqS cd
        (pre ++ Outcome.deliver fa :: rest) sent).ok = true ∧
    (UTP_CLOSE_SEND_fin H now psize fuel f seqS cd
        (pre ++ Outcome.deliver fa :: rest) sent).rest = rest ∧
    (UTP_CLOSE_SEND_fin H now psize fuel f seqS cd
        (pre ++ Outcome.deliver fa :: rest) sent).sent.length =
      sent.length + (pre.length + 1) := by
  intro pre
  induction pre with
  | nil =>
    intro fuel f seqS cd fa rest sent hfuel hcd hflag hpre hfa
    obtain ⟨g, rfl⟩ : ∃ g, fuel = g + 1 := ⟨fuel - 1, by omega⟩
    obtain ⟨g2, rfl⟩ : ∃ g2, g = g2 + 1 := ⟨g - 1, by omega⟩
    simp only [List.nil_append]
    simp only [UTP_CLOSE_SEND_fin, hflag, Bool.false_eq_true, if_false]
    rw [if_neg (by simp at hcd; omega : ¬ cd < 0)]
    have hfa2 : UTP_FLAG_EXACT
        (UTP_RECV H (Outcome.deliver fa :: rest).head?
          (UTP_SEND H now (UTP_PACK_PROPERTIES psize 0 seqS FIN f))).1
        (FIN ||| ACK) = true := by
      simpa [UTP_RECV, UTP_MD5_VERIFY, UTP_MD5_ADD, UTP_FLAG_EXACT] using hfa
    simp only [UTP_CLOSE_SEND_fin, hfa2, if_true]
    refine ⟨by trivial, by trivial, ?_⟩
    simp [List.length_append]
  | cons o pre ih =>
    intro fuel f seqS cd fa rest sent hfuel hcd hflag hpre hfa
    obtain ⟨g, rfl⟩ : ∃ g, fuel = g + 1 := ⟨fuel - 1, by omega⟩
    simp only [List.cons_append]
    simp only [UTP_CLOSE_SEND_fin, hflag, Bool.false_eq_true, if_false]
    rw [if_neg (by simp at hcd; omega : ¬ cd < 0)]
    have hflag2 : UTP_FLAG_EXACT
        (UTP_RECV H ((o :: (pre ++ Outcome.deliver fa :: rest)).head?)
          (UTP_SEND H now (UTP_PACK_PROPERTIES psize 0 seqS FIN f))).1
        (FIN ||| ACK) = false := by
      cases o with
      | timeout => rfl
      | deliver gg =>
        have hg : isFinAckDeliver (Outcome.deliver gg) = false :=
          hpre (Outcome.deliver gg) (by simp)
        simpa [UTP_RECV, UTP_MD5_VERIFY, UTP_MD5_ADD, isFinAckDeliver,
          UTP_FLAG_EXACT] using hg
    have hpre2 : ∀ p ∈ pre, isFinAckDeliver p = false := fun p hp =>
      hpre p (List.mem_cons_of_mem _ hp)
    have := ih g
      (UTP_RECV H ((o :: (pre ++ Outcome.deliver fa :: rest)).head?)
        (UTP_SEND H now (UTP_PACK_PROPERTIES psize 0 seqS FIN f))).1
      (seqS + 1) (cd - 1) fa rest
      (sent ++ [UTP_SEND H now (UTP_PACK_PROPERTIES psize 0 seqS FIN f)])
      (by simp at hfuel ⊢; omega) (by simp at hcd ⊢; omega) hflag2 hpre2 hfa
    refine ⟨this.1, ?_, ?_⟩
    · simp only [List.tail_cons]
      exact this.2.1
    · simp only [List.tail_cons]
      rw [this.2.2]
      simp only [List.length_append, List.length_cons, List.length_nil]
      omega

theorem close_send_ack_exit (H : Pack → List Nat) (now : Int) (psize : Nat)
    (fuel : Nat) (f : Pack) (seqS cd : Int) (sent : List Pack)
    (hf : 1 ≤ fuel) (hcd : 0 ≤ cd) :
    (UTP_CLOSE_SEND_ack H now psize fuel f seqS cd [] sent).ok = true ∧
    (UTP_CLOSE_SEND_ack H now psize fuel f seqS cd [] sent).sent.length =
      sent.length + 1 := by
  obtain ⟨g, rfl⟩ : ∃ g, fuel = g + 1 := ⟨fuel - 1, by omega⟩
  simp only [UTP_CLOSE_SEND_ack]
  rw [if_neg (by omega : ¬ cd < 0)]
  simp [UTP_RECV, List.length_append]

/-- C9 counterexample: the retry budget is not `TEARDOWN_MAX` (16)
FIN-send rounds.  On a trace whose first FIN|ACK arrives only in round
17 — so no FIN|ACK within 16 rounds, where the claim says close_send
returns 0 — the code returns 1, having sent 17 FINs; and on a trace with
no frames at all it sends 18 FINs (not 16) before returning 0, because
the countdown `if (countdown-- < 0)` runs to −1. -/
theorem close_send_seventeen_rounds :
    (UTP_CLOSE_SEND constH 0 2 0
      (List.replicate 16 Outcome.timeout ++ [Outcome.deliver c9fa, Outcome.timeout])).ok
        = true ∧
    (UTP_CLOSE_SEND constH 0 2 0
      (List.replicate 16 Outcome.timeout ++ [Outcome.deliver c9fa, Outcome.timeout])).fins.length
        = 17 ∧
    (UTP_CLOSE_SEND constH 0 2 0 []).ok = false ∧
    (UTP_CLOSE_SEND constH 0 2 0 []).fins.length = 18 := by
  refine ⟨by decide, by decide, by decide, by decide⟩

/-- C9 amended: `close_send` terminates for every sequence of receive
outcomes, but its retry budget is 18 FIN-send rounds, not 16: the
countdown of `TEARDOWN_MAX = 16` is tested with `countdown-- < 0`, so
when no frame whose flags read exactly FIN|ACK is stored during the
first 17 rounds it returns 0 (timed out) after exactly 18 FIN sends (a
FIN|ACK arriving only in round 18 is ignored).  When a FIN|ACK arrives
in round k ≤ 17 the budget is reset and the final-ACK phase runs; it
returns 1 (acknowledged) once that phase ends because recv yields no
frame or the received frame no longer bears FIN|ACK — here, with the
trace exhausted after the FIN|ACK, after exactly one final ACK. -/
theorem close_send_budget (H : Pack → List Nat) (now : Int) (psize : Nat)
    (seqS : Int) :
    (∀ tr : List Outcome, (∀ o ∈ tr.take 17, isFinAckDeliver o = false) →
      (UTP_CLOSE_SEND H now psize seqS tr).ok = false ∧
      (UTP_CLOSE_SEND H now psize seqS tr).fins.length = 18) ∧
    (∀ (pre : List Outcome) (fa : Pack), pre.length ≤ 16 →
      (∀ o ∈ pre, isFinAckDeliver o = false) →
      UTP_FLAG_EXACT fa (FIN ||| ACK) = true →
      (UTP_CLOSE_SEND H now psize seqS (pre ++ [Outcome.deliver fa])).ok = true ∧
      (UTP_CLOSE_SEND H now psize seqS (pre ++ [Outcome.deliver fa])).fins.length =
        pre.length + 1 ∧
      (UTP_CLOSE_SEND H now psize seqS (pre ++ [Outcome.deliver fa])).acks.length = 1) := by
  constructor
  · intro tr htr
    have h17 := close_send_fin_timeout H now psize 17 20 (zeroPack psize) seqS tr []
      (by omega) rfl htr
    have hcd : (UTP_TEARDOWN_MAX : Int) = ((17 : Nat) : Int) - 1 := by decide
    unfold UTP_CLOSE_SEND
    rw [hcd]
    simp only [h17.1, Bool.false_eq_true, if_false]
    refine ⟨by trivial, ?_⟩
    rw [h17.2]
    rfl
  · intro pre fa hlen hpre hfa
    have hsucc := close_send_fin_success H now psize pre 20 (zeroPack psize) seqS
      UTP_TEARDOWN_MAX fa [] [] (by omega)
      (by simp only [UTP_TEARDOWN_MAX]; omega) rfl hpre hfa
    unfold UTP_CLOSE_SEND
    simp only [hsucc.1, if_true]
    have hack := close_send_ack_exit H now psize 20
      (UTP_CLOSE_SEND_fin H now psize 20 (zeroPack psize) seqS UTP_TEARDOWN_MAX
        (pre ++ [Outcome.deliver fa]) []).frame
      (UTP_CLOSE_SEND_fin H now psize 20 (zeroPack psize) seqS UTP_TEARDOWN_MAX
        (pre ++ [Outcome.deliver fa]) []).seqS
      UTP_TEARDOWN_MAX []
      (by omega) (by simp only [UTP_TEARDOWN_MAX]; omega)
    rw [hsucc.2.1]
    refine ⟨hack.1, ?_, ?_⟩
    · rw [hsucc.2.2]
      simp
    · rw [hack.2]
      rfl

/-- C9 amended witness: the timeout bound on a concrete all-timeout
trace and the acknowledged close on a concrete trace with a FIN|ACK in
round 3, all hypotheses discharged by evaluation. -/
theorem close_send_budget_witness :
    ((UTP_CLOSE_SEND constH 0 2 5 [Outcome.timeout]).ok = false ∧
      (UTP_CLOSE_SEND constH 0 2 5 [Outcome.timeout]).fins.length = 18) ∧
    (UTP_CLOSE_SEND constH 0 2 5 (c9pre ++ [Outcome.deliver c9fa])).ok = true ∧
    (UTP_CLOSE_SEND constH 0 2 5 (c9pre ++ [Outcome.deliver c9fa])).fins.length = 3 ∧
    (UTP_CLOSE_SEND constH 0 2 5 (c9pre ++ [Outcome.deliver c9fa])).acks.length = 1 :=
  ⟨(close_send_budget constH 0 2 5).1 [Outcome.timeout] (by decide),
    (close_send_budget constH 0 2 5).2 c9pre c9fa (by decide) (by decide) (by decide)⟩

end DVALab
